import Mathlib

/-!
Formal model of the chesser-upgraded opening explorer.

The development shallowly embeds the analysis engine of
`src/OpeningAnalyze.py` (class `LichessStockfishAnalyzer`) and, where a claim
touches it, the older `src/chesser2.py` variant.  Positions and moves are the
strings the Python code itself uses as identities (FEN strings and UCI move
strings); the two external collaborators (the Lichess HTTP endpoint and the
Stockfish engine) are abstracted as an `Env` of pure functions, exactly at the
boundary where the Python code consumes their results.  Every externally
visible action of the engine (oracle query, rate-limit sleep, evaluator call,
cache store, record emission, checkpoint save) is recorded in an event trace
so that temporal claims can be stated about runs.

The recursion of `analyze_position_recursive` is unbounded in Python; the
embedding adds an explicit fuel parameter, with `none` meaning the run did not
complete normally (fuel exhaustion, or an uncaught Python exception on the
paths where the source has no try/except).
-/

/-- One move entry of the Lichess explorer JSON response (the fields the code
reads: `uci`, `san`, and the `white`/`draws`/`black` game counts). -/
structure RawMove where
  uci : String
  san : String
  white : Nat
  draws : Nat
  black : Nat
deriving Repr, DecidableEq

/-- The decoded JSON body of a Lichess explorer response: its `moves` list. -/
structure LichessResponse where
  moves : List RawMove
deriving Repr, DecidableEq

/-- A filtered move entry as built by `get_lichess_moves` (OpeningAnalyze.py
lines 126-133). -/
structure MoveData where
  uci : String
  san : String
  games : Nat
  white_wins : Nat
  draws : Nat
  black_wins : Nat
deriving Repr, DecidableEq

/-- The evaluator-side data `get_best_response` extracts from Stockfish: the
reply move (`result.move`, line 157) and the post-reply relative score
`info['score'].relative.score(mate_score=10000)` (line 165), an integer number
of centipawns given from the perspective of the side to move in the position
after the reply. -/
structure RawEval where
  uci : String
  san : String
  relScore : Int
deriving Repr, DecidableEq

/-- The dictionary `get_best_response` returns (without the non-serializable
move object): reply move encoding, its SAN label, and the evaluation in pawns
(`score / 100`, line 173).  This is also exactly what `analyze_position_recursive`
stores in the cache (lines 301-305). -/
structure BestReply where
  uci : String
  san : String
  evaluation : ℚ
deriving Repr, DecidableEq

/-- One entry of `self.all_variations` (OpeningAnalyze.py lines 324-330). -/
structure Variation where
  number : Nat
  moves : String
  evaluation : ℚ
  games : Nat
  depth : Nat
deriving Repr, DecidableEq

/-- The persistent analyzer state: the four fields saved by `save_progress`
and loaded by `load_progress`.  The cache dictionary is modelled as an
association list (stores only happen under a not-in-cache guard, so append
order is the dictionary insertion order), the FEN set as a list queried by
membership. -/
structure AState where
  analyzed_positions : List (String × BestReply)
  fully_explored_fens : List String
  variation_counter : Nat
  all_variations : List Variation
deriving Repr, DecidableEq

/-- The empty/zero state `__init__` sets up (lines 30-35). -/
def initState : AState := ⟨[], [], 0, []⟩

/-- The external world as the engine observes it: the HTTP outcome of the
Lichess explorer request for a FEN ( `.error` models a raised
`requests.exceptions.RequestException`), the rules engine
(`chess.Move.from_uci` + `board.push`, with `none` modelling a raised
exception), the Stockfish session (`none` models "no move found" or an
engine exception, cf. lines 155-179), and the `min_games` configuration. -/
structure Env where
  http : String → Except String LichessResponse
  applyMove : String → String → Option String
  evalRaw : String → Option RawEval
  min_games : Nat

/-- Observable actions of a run, in order of occurrence. -/
inductive Event where
  | oracleQuery (fen : String)
  | sleep (ms : Nat)
  | evalQuery (fen : String)
  | cacheStore (key : String)
  | emit (n : Nat)
  | checkpoint
deriving Repr, DecidableEq

/-- Cache key construction, `_cache_key` (line 39): the FEN and the popular
move joined by a bar. -/
def cacheKey (fen uci : String) : String := fen ++ "|" ++ uci

/-- Dictionary lookup on the association-list model of `analyzed_positions`. -/
def lookupKey (l : List (String × BestReply)) (k : String) : Option BestReply :=
  match l with
  | [] => none
  | (k', v) :: rest => if k' = k then some v else lookupKey rest k

/-- The filtering loop of `get_lichess_moves` (lines 120-133): sum the three
game counts and keep the entry iff the total meets `min_games`. -/
def filterMoves (min_games : Nat) (raw : List RawMove) : List MoveData :=
  raw.filterMap (fun m =>
    let total := m.white + m.draws + m.black
    if min_games ≤ total then
      some { uci := m.uci, san := m.san, games := total,
             white_wins := m.white, draws := m.draws, black_wins := m.black }
    else none)

/-- `get_lichess_moves` of OpeningAnalyze.py (lines 96-142): on HTTP success,
take the first `top_n` response entries and filter them by `min_games`; on a
request exception, print and return the empty list.  The `time.sleep(0.5)`
sits in a `finally` block (lines 140-142), so the 500 ms sleep event follows
the query on both paths. -/
def get_lichess_moves (env : Env) (fen : String) (top_n : Nat) :
    List MoveData × List Event :=
  match env.http fen with
  | .ok data =>
      (filterMoves env.min_games (data.moves.take top_n),
       [Event.oracleQuery fen, Event.sleep 500])
  | .error _ => ([], [Event.oracleQuery fen, Event.sleep 500])

/-- `get_lichess_moves` of chesser2.py (lines 47-93).  The body is identical
except that its `time.sleep(0.5)` (line 93) stands after the `return moves`
(line 86) and `return []` (line 90) statements, so it is unreachable: no sleep
event occurs on either path. -/
def chesser2_get_lichess_moves (env : Env) (fen : String) (top_n : Nat) :
    List MoveData × List Event :=
  match env.http fen with
  | .ok data =>
      (filterMoves env.min_games (data.moves.take top_n), [Event.oracleQuery fen])
  | .error _ => ([], [Event.oracleQuery fen])

/-- `get_best_response` (lines 144-179): ask the engine for the reply and the
post-reply relative score, then negate the score ("Flip the score since we're
looking from the other player's perspective", line 166-167) and scale
centipawns to pawns.  A missing move or an engine exception yields `none`. -/
def bestReplyOf (r : RawEval) : BestReply :=
  { uci := r.uci, san := r.san, evaluation := (-(r.relScore : ℚ)) / 100 }

/-- `get_best_response` (lines 144-179) as a whole: on success, package the
negated, scaled score with the reply move. -/
def get_best_response (env : Env) (fen : String) :
    Option BestReply × List Event :=
  match env.evalRaw fen with
  | some r => (some (bestReplyOf r), [Event.evalQuery fen])
  | none => (none, [Event.evalQuery fen])

/-- A move history entry: (UCI encoding, SAN label), mirroring the
`(move_object, san)` tuples of the Python history (the move object is only
ever used through its UCI encoding in this model). -/
abbrev Hist := List (String × String)

/-- Helper for `get_move_path_string`: running move number and ply index. -/
def movePathStringAux : Nat → Nat → Hist → String
  | _, _, [] => ""
  | moveNumber, i, (_, san) :: rest =>
    if i % 2 = 0 then
      toString moveNumber ++ ". " ++ san ++ " " ++
        movePathStringAux (moveNumber + 1) (i + 1) rest
    else
      san ++ " " ++ movePathStringAux moveNumber (i + 1) rest

/-- Python `str.strip()`: drop whitespace from both ends (written over the
character list so that it evaluates by structural recursion). -/
def pyStrip (s : String) : String :=
  ⟨((s.data.dropWhile Char.isWhitespace).reverse.dropWhile
      Char.isWhitespace).reverse⟩

/-- `get_move_path_string` (lines 212-222): standard "N. white black"
grouping, stripped of surrounding whitespace. -/
def movePathString (hist : Hist) : String :=
  pyStrip (movePathStringAux 1 0 hist)

/-- The complete two-ply history after a fresh candidate-plus-reply line
(`new_history` at line 288 extended at line 310). -/
def coldHist (hist : Hist) (m : MoveData) (r : RawEval) : Hist :=
  hist ++ [(m.uci, m.san)] ++ [((bestReplyOf r).uci, (bestReplyOf r).san)]

/-- State mutation of the cold path (lines 300-330): store the reply in the
cache, bump the variation counter, and append the new variation record. -/
def coldStore (st : AState) (key : String) (hist2 : Hist) (games : Nat)
    (br : BestReply) : AState :=
  { st with
    analyzed_positions := st.analyzed_positions ++ [(key, br)],
    variation_counter := st.variation_counter + 1,
    all_variations := st.all_variations ++
      [{ number := st.variation_counter + 1,
         moves := movePathString hist2,
         evaluation := br.evaluation,
         games := games,
         depth := hist2.length }] }

/-- Trace of one completed cold-path step before the recursion: the evaluator
call, the cache store, the record emission numbered `n + 1`, and the
`save_progress` checkpoint of line 333. -/
def coldEvents (fen1 key : String) (n : Nat) : List Event :=
  [Event.evalQuery fen1, Event.cacheStore key, Event.emit (n + 1),
   Event.checkpoint]

/-- Processing of one candidate move, the body of the loop at lines 258-339.
`rec` is the recursive call into `analyze_position_recursive` at the next
depth level.  The result is `none` when the Python code would raise out of the
loop (the cache-hit branch at lines 268-277 and the response push at lines
309/336 have no try/except; move parsing and pushing are merged into
`Env.applyMove`) or when the nested recursion does not complete. -/
def processOne (env : Env)
    (rec : AState → String → Hist → Option (AState × List Event))
    (st : AState) (fen : String) (hist : Hist) (m : MoveData) :
    Option (AState × List Event) :=
  match lookupKey st.analyzed_positions (cacheKey fen m.uci) with
  | some cached =>
    -- cache hit (lines 262-279): rebuild the two-ply position and recurse
    match env.applyMove fen m.uci with
    | none => none
    | some fen1 =>
      match env.applyMove fen1 cached.uci with
      | none => none
      | some fen2 =>
        rec st fen2 (hist ++ [(m.uci, m.san), (cached.uci, cached.san)])
  | none =>
    -- cold path (lines 281-339)
    match env.applyMove fen m.uci with
    | none => some (st, [])          -- "Error making move": skip (lines 289-291)
    | some fen1 =>
      match env.evalRaw fen1 with
      | none => some (st, [Event.evalQuery fen1])  -- "Could not find best response"
      | some r =>
        match env.applyMove fen1 (bestReplyOf r).uci with
        | none => none
        | some fen2 =>
          match rec (coldStore st (cacheKey fen m.uci) (coldHist hist m r)
              m.games (bestReplyOf r)) fen2 (coldHist hist m r) with
          | none => none
          | some (st1, ev1) =>
            some (st1,
              coldEvents fen1 (cacheKey fen m.uci) st.variation_counter ++ ev1)

/-- The candidate loop of `analyze_position_recursive` (line 258): process the
candidates in oracle order, threading the state and concatenating traces. -/
def processMovesAux (env : Env)
    (rec : AState → String → Hist → Option (AState × List Event)) :
    AState → String → Hist → List MoveData → Option (AState × List Event)
  | st, _, _, [] => some (st, [])
  | st, fen, hist, m :: rest =>
    match processOne env rec st fen hist m with
    | none => none
    | some (st1, ev1) =>
      match processMovesAux env rec st1 fen hist rest with
      | none => none
      | some (st2, ev2) => some (st2, ev1 ++ ev2)

/-- `analyze_position_recursive` (lines 224-343) with explicit fuel.  At each
position: short-circuit if the FEN is fully explored (lines 240-243); query
the oracle with `top_n=5` (line 247); on an empty candidate list mark the
position explored, checkpoint and return (lines 249-253); otherwise process
every candidate and then mark the position explored and checkpoint
(lines 341-343). -/
def analyze_position_recursive (env : Env) :
    Nat → AState → String → Hist → Option (AState × List Event)
  | 0, _, _, _ => none
  | fuel + 1, st, fen, hist =>
    if fen ∈ st.fully_explored_fens then some (st, [])
    else
      match get_lichess_moves env fen 5 with
      | (moves, ev0) =>
        if moves = [] then
          some ({ st with fully_explored_fens := fen :: st.fully_explored_fens },
                ev0 ++ [Event.checkpoint])
        else
          match processMovesAux env
              (analyze_position_recursive env fuel) st fen hist moves with
          | none => none
          | some (st1, ev1) =>
            some ({ st1 with fully_explored_fens := fen :: st1.fully_explored_fens },
                  ev0 ++ ev1 ++ [Event.checkpoint])

/-- The progress document as parsed from JSON: every field optional, matching
the `data.get(..., default)` reads of `load_progress` (lines 59-62). -/
structure ProgressDoc where
  analyzed_positions : Option (List (String × BestReply))
  fully_explored_fens : Option (List String)
  variation_counter : Option Nat
  all_variations : Option (List Variation)
deriving Repr, DecidableEq

/-- Possible outcomes of opening and reading the progress file, at the
granularity of the Python exceptions that can escape `json.load(open(...))`:
the file may be absent (line 51), `open`/read may raise `OSError`, decoding
the bytes may raise `UnicodeDecodeError`, JSON parsing may raise
`json.JSONDecodeError`, or parsing succeeds. -/
inductive ReadResult where
  | absent
  | osError (msg : String)
  | badEncoding (msg : String)
  | jsonError (msg : String)
  | parsed (doc : ProgressDoc)
deriving Repr, DecidableEq

/-- `load_progress` (lines 41-68) over the possible read outcomes.  The
`except` clause catches exactly `json.JSONDecodeError` and `KeyError`; an
`OSError` or `UnicodeDecodeError` propagates to the caller (`Except.error`).
The returned strings model the printed messages. -/
def load_progress (file : ReadResult) (st : AState) :
    Except String (AState × List String) :=
  match file with
  | .absent => .ok (st, ["No previous progress found. Starting fresh."])
  | .osError e => .error e
  | .badEncoding e => .error e
  | .jsonError e =>
      .ok (st, ["Warning: Could not load progress file (" ++ e ++ "). Starting fresh."])
  | .parsed doc =>
      .ok ({ analyzed_positions := doc.analyzed_positions.getD [],
             fully_explored_fens := doc.fully_explored_fens.getD [],
             variation_counter := doc.variation_counter.getD 0,
             all_variations := doc.all_variations.getD [] },
           ["Resumed progress."])

/-- Side to move after `plies` half-moves from a position where `s` is to
move. -/
def sideToMoveAfter (s : Bool) (plies : Nat) : Bool :=
  if plies % 2 = 0 then s else !s

/-- Modelled from the spec: a score known from the perspective of
`scoreSide`, re-expressed from the perspective of `viewer` ("Evaluation sign
convention: always relative to the side to move before the candidate move was
played"). -/
def scoreFromPerspective (score : ℚ) (scoreSide viewer : Bool) : ℚ :=
  if scoreSide = viewer then score else -score

/-- The reply the engine uses for a candidate: the cached one on a hit,
otherwise the evaluator's freshly computed one (loop step 3b of the spec). -/
def replyFor (env : Env) (st : AState) (fen fen1 : String) (m : MoveData) :
    Option BestReply :=
  match lookupKey st.analyzed_positions (cacheKey fen m.uci) with
  | some cached => some cached
  | none => (get_best_response env fen1).1

/-- Record-emission events of a trace. -/
def isEmit : Event → Bool
  | .emit _ => true
  | _ => false

/-- Number of record emissions in a trace. -/
def countEmits (ev : List Event) : Nat := ev.countP isEmit

/-- The cache keys stored during a trace, in order. -/
def storeKeys (ev : List Event) : List String :=
  ev.filterMap (fun e => match e with | .cacheStore k => some k | _ => none)

/-- Replay a trace against a set of known cache keys, checking that every
store is at a key not previously known: true exactly when every store of the
trace is fresh. -/
def freshStores : List String → List Event → Bool
  | _, [] => true
  | known, .cacheStore k :: rest =>
      if k ∈ known then false else freshStores (k :: known) rest
  | known, _ :: rest => freshStores known rest

/-- The known-key set after replaying a trace. -/
def replayKnown : List String → List Event → List String
  | known, [] => known
  | known, .cacheStore k :: rest => replayKnown (k :: known) rest
  | known, _ :: rest => replayKnown known rest

/-- A concrete evaluator answer: reply `e7e5`, post-reply relative score
+20 centipawns. -/
def rawE5 : RawEval := ⟨"e7e5", "e5", 20⟩

/-- A world where the root position "f0" has one popular candidate `e2e4`
(600 games), the oracle fails for every other position, and the evaluator
replies `e7e5` with post-reply relative score +20 centipawns. -/
def envHappy : Env :=
  { http := fun f =>
      if f = "f0" then .ok ⟨[⟨"e2e4", "e4", 600, 0, 0⟩]⟩ else .error "offline",
    applyMove := fun f u =>
      if f = "f0" then (if u = "e2e4" then some "f1" else none)
      else if f = "f1" then (if u = "e7e5" then some "f2" else none)
      else none,
    evalRaw := fun f =>
      if f = "f1" then some rawE5 else none,
    min_games := 500 }

/-- The same world, but the evaluator never finds a move. -/
def envEvalFails : Env :=
  { http := fun f =>
      if f = "f0" then .ok ⟨[⟨"e2e4", "e4", 600, 0, 0⟩]⟩ else .error "offline",
    applyMove := fun f u =>
      if f = "f0" then (if u = "e2e4" then some "f1" else none) else none,
    evalRaw := fun _ => none,
    min_games := 500 }

/-- What any completed piece of the traversal does to the persistent state,
expressed against its event trace: the cache only grows, by exactly the keys
stored in the trace; the variation counter advances by exactly the number of
emitted records; the record list is append-only and grows in lockstep with the
counter; every store is paired with exactly one emission; every stored key was
absent from the cache at the moment of its store; and the explored set only
grows. -/
structure RunDelta (st st2 : AState) (ev : List Event) : Prop where
  cacheExt : ∃ ext, st2.analyzed_positions = st.analyzed_positions ++ ext ∧
    ext.map Prod.fst = storeKeys ev
  counterAdds : st2.variation_counter = st.variation_counter + countEmits ev
  recsExt : ∃ recs, st2.all_variations = st.all_variations ++ recs ∧
    recs.length = countEmits ev
  storesMatchEmits : (storeKeys ev).length = countEmits ev
  fresh : freshStores (st.analyzed_positions.map Prod.fst) ev = true
  fensExt : ∃ fens, st2.fully_explored_fens = fens ++ st.fully_explored_fens

/-- The candidate entry `get_lichess_moves envHappy "f0" 5` returns. -/
def mvE4 : MoveData :=
  { uci := "e2e4", san := "e4", games := 600, white_wins := 600, draws := 0,
    black_wins := 0 }

/-- Final state of the completed run `analyze_position_recursive envHappy 3
initState "f0" []`. -/
def stHappy : AState :=
  { analyzed_positions := [(cacheKey "f0" "e2e4", bestReplyOf rawE5)],
    fully_explored_fens := ["f0", "f2"],
    variation_counter := 1,
    all_variations :=
      [{ number := 1, moves := "1. e4 e5",
         evaluation := (bestReplyOf rawE5).evaluation, games := 600, depth := 2 }] }

/-- Event trace of that run. -/
def evHappy : List Event :=
  [Event.oracleQuery "f0", Event.sleep 500, Event.evalQuery "f1",
   Event.cacheStore (cacheKey "f0" "e2e4"), Event.emit 1, Event.checkpoint,
   Event.oracleQuery "f2", Event.sleep 500, Event.checkpoint, Event.checkpoint]

/-- A resumed-checkpoint state: the root candidate is cached but "f0" is not
yet fully explored (e.g. the prior run stopped mid-loop). -/
def stCached : AState :=
  { analyzed_positions := [(cacheKey "f0" "e2e4", bestReplyOf rawE5)],
    fully_explored_fens := [],
    variation_counter := 1,
    all_variations := [] }

/-- A world where every explorer HTTP request raises a RequestException. -/
def envHttpError : Env :=
  { http := fun _ => .error "ReadTimeout",
    applyMove := fun _ _ => none,
    evalRaw := fun _ => none,
    min_games := 1 }

/-- A world where every explorer HTTP request succeeds with one entry. -/
def envHttpOk : Env :=
  { http := fun _ => .ok ⟨[⟨"e2e4", "e4", 5, 3, 2⟩]⟩,
    applyMove := fun _ _ => none,
    evalRaw := fun _ => none,
    min_games := 1 }

/-! ### Basic facts about the embedded operations -/

theorem get_lichess_moves_events (env : Env) (fen : String) (n : Nat) :
    (get_lichess_moves env fen n).2 = [Event.oracleQuery fen, Event.sleep 500] := by
  unfold get_lichess_moves
  cases env.http fen <;> rfl

theorem get_lichess_moves_error (env : Env) (fen : String) (n : Nat) (msg : String)
    (h : env.http fen = .error msg) :
    get_lichess_moves env fen n = ([], [Event.oracleQuery fen, Event.sleep 500]) := by
  unfold get_lichess_moves
  rw [h]

@[simp] theorem lookupKey_nil (k : String) :
    lookupKey [] k = none := rfl

theorem lookupKey_cons (k1 : String) (v1 : BestReply)
    (t : List (String × BestReply)) (k : String) :
    lookupKey ((k1, v1) :: t) k = if k1 = k then some v1 else lookupKey t k := rfl

theorem lookupKey_append_some (l l2 : List (String × BestReply)) (k : String)
    (v : BestReply) (h : lookupKey l k = some v) :
    lookupKey (l ++ l2) k = some v := by
  induction l with
  | nil => cases h
  | cons p t ih =>
    obtain ⟨k1, v1⟩ := p
    rw [lookupKey_cons] at h
    show lookupKey ((k1, v1) :: (t ++ l2)) k = some v
    rw [lookupKey_cons]
    by_cases hk : k1 = k
    · rwa [if_pos hk] at h ⊢
    · rw [if_neg hk] at h ⊢
      exact ih h

theorem lookupKey_none_iff (l : List (String × BestReply)) (k : String) :
    lookupKey l k = none ↔ k ∉ l.map Prod.fst := by
  induction l with
  | nil => simp
  | cons p t ih =>
    obtain ⟨k1, v1⟩ := p
    rw [lookupKey_cons]
    by_cases hk : k1 = k
    · simp [hk]
    · simp [hk, ih, Ne.symm hk]

theorem lookupKey_append_self (l : List (String × BestReply)) (k : String)
    (v : BestReply) (h : lookupKey l k = none) :
    lookupKey (l ++ [(k, v)]) k = some v := by
  induction l with
  | nil => simp [lookupKey_cons]
  | cons p t ih =>
    obtain ⟨k1, v1⟩ := p
    rw [lookupKey_cons] at h
    rw [List.cons_append, lookupKey_cons]
    by_cases hk : k1 = k
    · rw [if_pos hk] at h
      cases h
    · rw [if_neg hk] at h ⊢
      exact ih h

/-! ### Trace bookkeeping -/

theorem countEmits_append (a b : List Event) :
    countEmits (a ++ b) = countEmits a + countEmits b :=
  List.countP_append isEmit a b

theorem storeKeys_append (a b : List Event) :
    storeKeys (a ++ b) = storeKeys a ++ storeKeys b :=
  List.filterMap_append a b _

theorem storeKeys_cons (e : Event) (t : List Event) :
    storeKeys (e :: t) =
      (match e with | .cacheStore k => [k] | _ => []) ++ storeKeys t := by
  cases e <;> rfl

@[simp] theorem freshStores_nil (K : List String) : freshStores K [] = true := rfl

theorem freshStores_store (K : List String) (k : String) (t : List Event) :
    freshStores K (Event.cacheStore k :: t) =
      if k ∈ K then false else freshStores (k :: K) t := rfl

theorem freshStores_skip (K : List String) (e : Event) (t : List Event)
    (h : ∀ k, e ≠ Event.cacheStore k) :
    freshStores K (e :: t) = freshStores K t := by
  cases e with
  | cacheStore k => exact absurd rfl (h k)
  | oracleQuery f => rfl
  | sleep ms => rfl
  | evalQuery f => rfl
  | emit n => rfl
  | checkpoint => rfl

@[simp] theorem replayKnown_nil (K : List String) : replayKnown K [] = K := rfl

theorem replayKnown_store (K : List String) (k : String) (t : List Event) :
    replayKnown K (Event.cacheStore k :: t) = replayKnown (k :: K) t := rfl

theorem replayKnown_skip (K : List String) (e : Event) (t : List Event)
    (h : ∀ k, e ≠ Event.cacheStore k) :
    replayKnown K (e :: t) = replayKnown K t := by
  cases e with
  | cacheStore k => exact absurd rfl (h k)
  | oracleQuery f => rfl
  | sleep ms => rfl
  | evalQuery f => rfl
  | emit n => rfl
  | checkpoint => rfl

theorem freshStores_append (K : List String) (a b : List Event) :
    freshStores K (a ++ b) =
      (freshStores K a && freshStores (replayKnown K a) b) := by
  induction a generalizing K with
  | nil => simp
  | cons e t ih =>
    rw [List.cons_append]
    cases e with
    | cacheStore k =>
      rw [freshStores_store, freshStores_store, replayKnown_store]
      by_cases hk : k ∈ K
      · simp [hk]
      · simp [hk, ih]
    | oracleQuery f =>
      rw [freshStores_skip _ _ _ (by intro k h; cases h),
          freshStores_skip _ _ _ (by intro k h; cases h),
          replayKnown_skip _ _ _ (by intro k h; cases h), ih]
    | sleep ms =>
      rw [freshStores_skip _ _ _ (by intro k h; cases h),
          freshStores_skip _ _ _ (by intro k h; cases h),
          replayKnown_skip _ _ _ (by intro k h; cases h), ih]
    | evalQuery f =>
      rw [freshStores_skip _ _ _ (by intro k h; cases h),
          freshStores_skip _ _ _ (by intro k h; cases h),
          replayKnown_skip _ _ _ (by intro k h; cases h), ih]
    | emit n =>
      rw [freshStores_skip _ _ _ (by intro k h; cases h),
          freshStores_skip _ _ _ (by intro k h; cases h),
          replayKnown_skip _ _ _ (by intro k h; cases h), ih]
    | checkpoint =>
      rw [freshStores_skip _ _ _ (by intro k h; cases h),
          freshStores_skip _ _ _ (by intro k h; cases h),
          replayKnown_skip _ _ _ (by intro k h; cases h), ih]

theorem replayKnown_mem (K : List String) (ev : List Event) (x : String) :
    x ∈ replayKnown K ev ↔ x ∈ K ∨ x ∈ storeKeys ev := by
  induction ev generalizing K with
  | nil => simp [storeKeys]
  | cons e t ih =>
    cases e with
    | cacheStore k =>
      rw [replayKnown_store, ih, storeKeys_cons]
      simp only [List.mem_cons, List.mem_append, List.mem_singleton]
      tauto
    | oracleQuery f =>
      rw [replayKnown_skip _ _ _ (by intro k h; cases h), ih, storeKeys_cons]
      simp
    | sleep ms =>
      rw [replayKnown_skip _ _ _ (by intro k h; cases h), ih, storeKeys_cons]
      simp
    | evalQuery f =>
      rw [replayKnown_skip _ _ _ (by intro k h; cases h), ih, storeKeys_cons]
      simp
    | emit n =>
      rw [replayKnown_skip _ _ _ (by intro k h; cases h), ih, storeKeys_cons]
      simp
    | checkpoint =>
      rw [replayKnown_skip _ _ _ (by intro k h; cases h), ih, storeKeys_cons]
      simp

theorem freshStores_congr (ev : List Event) (K1 K2 : List String)
    (h : ∀ x, x ∈ K1 ↔ x ∈ K2) : freshStores K1 ev = freshStores K2 ev := by
  induction ev generalizing K1 K2 with
  | nil => rfl
  | cons e t ih =>
    cases e with
    | cacheStore k =>
      rw [freshStores_store, freshStores_store]
      by_cases hk : k ∈ K1
      · rw [if_pos hk, if_pos ((h k).mp hk)]
      · rw [if_neg hk, if_neg (fun c => hk ((h k).mpr c))]
        exact ih _ _ (fun x => by simp only [List.mem_cons]; rw [h x])
    | oracleQuery f =>
      rw [freshStores_skip _ _ _ (by intro k hh; cases hh),
          freshStores_skip _ _ _ (by intro k hh; cases hh)]
      exact ih K1 K2 h
    | sleep ms =>
      rw [freshStores_skip _ _ _ (by intro k hh; cases hh),
          freshStores_skip _ _ _ (by intro k hh; cases hh)]
      exact ih K1 K2 h
    | evalQuery f =>
      rw [freshStores_skip _ _ _ (by intro k hh; cases hh),
          freshStores_skip _ _ _ (by intro k hh; cases hh)]
      exact ih K1 K2 h
    | emit n =>
      rw [freshStores_skip _ _ _ (by intro k hh; cases hh),
          freshStores_skip _ _ _ (by intro k hh; cases hh)]
      exact ih K1 K2 h
    | checkpoint =>
      rw [freshStores_skip _ _ _ (by intro k hh; cases hh),
          freshStores_skip _ _ _ (by intro k hh; cases hh)]
      exact ih K1 K2 h

theorem freshStores_of_no_stores (K : List String) (ev : List Event)
    (h : storeKeys ev = []) : freshStores K ev = true := by
  induction ev generalizing K with
  | nil => rfl
  | cons e t ih =>
    rw [storeKeys_cons] at h
    cases e with
    | cacheStore k => cases h
    | oracleQuery f =>
      rw [freshStores_skip _ _ _ (by intro k hh; cases hh)]
      exact ih K h
    | sleep ms =>
      rw [freshStores_skip _ _ _ (by intro k hh; cases hh)]
      exact ih K h
    | evalQuery f =>
      rw [freshStores_skip _ _ _ (by intro k hh; cases hh)]
      exact ih K h
    | emit n =>
      rw [freshStores_skip _ _ _ (by intro k hh; cases hh)]
      exact ih K h
    | checkpoint =>
      rw [freshStores_skip _ _ _ (by intro k hh; cases hh)]
      exact ih K h

/-! ### The run invariant: how a completed (sub-)run may change the state -/

theorem RunDelta.refl (st : AState) : RunDelta st st [] :=
  ⟨⟨[], by simp, rfl⟩, by simp [countEmits, List.countP_nil],
   ⟨[], by simp, by simp [countEmits, List.countP_nil]⟩,
   by simp [countEmits, List.countP_nil, storeKeys],
   rfl, ⟨[], rfl⟩⟩

/-- A trace with no stores and no emissions leaves the state unchanged in a
`RunDelta`-compatible way. -/
theorem RunDelta.ofSilent (st : AState) (ev : List Event)
    (h1 : storeKeys ev = []) (h2 : countEmits ev = 0) : RunDelta st st ev :=
  ⟨⟨[], by simp, by simp [h1]⟩, by simp [h2], ⟨[], by simp, by simp [h2]⟩,
   by simp [h1, h2], freshStores_of_no_stores _ _ h1, ⟨[], rfl⟩⟩

/-- Marking a FEN as fully explored is a silent state change on top of a
store-free, emission-free trace. -/
theorem RunDelta.markExplored (st : AState) (fen : String) (ev : List Event)
    (h1 : storeKeys ev = []) (h2 : countEmits ev = 0) :
    RunDelta st { st with fully_explored_fens := fen :: st.fully_explored_fens } ev :=
  ⟨⟨[], by simp, by simp [h1]⟩, by simp [h2], ⟨[], by simp, by simp [h2]⟩,
   by simp [h1, h2], freshStores_of_no_stores _ _ h1, ⟨[fen], rfl⟩⟩

theorem RunDelta.comp {st st1 st2 : AState} {ev1 ev2 : List Event}
    (d1 : RunDelta st st1 ev1) (d2 : RunDelta st1 st2 ev2) :
    RunDelta st st2 (ev1 ++ ev2) := by
  obtain ⟨⟨e1, he1, hk1⟩, c1, ⟨r1, hr1, hl1⟩, s1, f1, ⟨g1, hg1⟩⟩ := d1
  obtain ⟨⟨e2, he2, hk2⟩, c2, ⟨r2, hr2, hl2⟩, s2, f2, ⟨g2, hg2⟩⟩ := d2
  refine ⟨⟨e1 ++ e2, ?_, ?_⟩, ?_, ⟨r1 ++ r2, ?_, ?_⟩, ?_, ?_, ⟨g2 ++ g1, ?_⟩⟩
  · rw [he2, he1, List.append_assoc]
  · rw [List.map_append, hk1, hk2, storeKeys_append]
  · rw [c2, c1, countEmits_append, Nat.add_assoc]
  · rw [hr2, hr1, List.append_assoc]
  · rw [List.length_append, hl1, hl2, countEmits_append]
  · rw [storeKeys_append, List.length_append, s1, s2, countEmits_append]
  · rw [freshStores_append]
    have hkeys : ∀ x, x ∈ replayKnown (st.analyzed_positions.map Prod.fst) ev1 ↔
        x ∈ st1.analyzed_positions.map Prod.fst := by
      intro x
      rw [replayKnown_mem, he1, List.map_append, hk1, List.mem_append]
    rw [f1, freshStores_congr ev2 _ _ hkeys, f2]
    rfl
  · rw [hg2, hg1, List.append_assoc]

/-- Preservation of cache entries across any `RunDelta`. -/
theorem RunDelta.lookup_preserved {st st2 : AState} {ev : List Event}
    (d : RunDelta st st2 ev) (k : String)
    (h : (lookupKey st.analyzed_positions k).isSome = true) :
    (lookupKey st2.analyzed_positions k).isSome = true := by
  obtain ⟨ext, hext, _⟩ := d.cacheExt
  obtain ⟨v, hv⟩ := Option.isSome_iff_exists.mp h
  rw [hext, lookupKey_append_some _ _ _ _ hv]
  rfl

/-- The explored set never shrinks across a `RunDelta`. -/
theorem RunDelta.explored_preserved {st st2 : AState} {ev : List Event}
    (d : RunDelta st st2 ev) (fen : String)
    (h : fen ∈ st.fully_explored_fens) : fen ∈ st2.fully_explored_fens := by
  obtain ⟨fens, hf⟩ := d.fensExt
  rw [hf, List.mem_append]
  exact Or.inr h

/-- One cold-path step (evaluator call, fresh store, emission, checkpoint)
satisfies the run invariant, provided the stored key is indeed absent. -/
theorem RunDelta.coldStep (st : AState) (fen1 key : String) (hist2 : Hist)
    (games : Nat) (br : BestReply)
    (hfresh : lookupKey st.analyzed_positions key = none) :
    RunDelta st (coldStore st key hist2 games br) (coldEvents fen1 key st.variation_counter) := by
  have hnot : key ∉ st.analyzed_positions.map Prod.fst :=
    (lookupKey_none_iff _ _).mp hfresh
  refine ⟨⟨[(key, br)], rfl, rfl⟩, rfl, ⟨_, rfl, rfl⟩, rfl, ?_, ⟨[], rfl⟩⟩
  unfold coldEvents
  rw [freshStores_skip _ _ _ (by intro k hh; cases hh), freshStores_store,
      if_neg hnot,
      freshStores_skip _ _ _ (by intro k hh; cases hh),
      freshStores_skip _ _ _ (by intro k hh; cases hh)]
  rfl

/-! ### Branch equations for the loop body and the recursion -/

theorem processOne_hit (env : Env) (rec : AState → String → Hist → Option (AState × List Event))
    (st : AState) (fen : String) (hist : Hist) (m : MoveData)
    (cached : BestReply) (fen1 fen2 : String)
    (hl : lookupKey st.analyzed_positions (cacheKey fen m.uci) = some cached)
    (h1 : env.applyMove fen m.uci = some fen1)
    (h2 : env.applyMove fen1 cached.uci = some fen2) :
    processOne env rec st fen hist m =
      rec st fen2 (hist ++ [(m.uci, m.san), (cached.uci, cached.san)]) := by
  simp only [processOne, hl, h1, h2]

theorem processOne_applyFail (env : Env) (rec : AState → String → Hist → Option (AState × List Event))
    (st : AState) (fen : String) (hist : Hist) (m : MoveData)
    (hl : lookupKey st.analyzed_positions (cacheKey fen m.uci) = none)
    (h1 : env.applyMove fen m.uci = none) :
    processOne env rec st fen hist m = some (st, []) := by
  simp only [processOne, hl, h1]

theorem processOne_evalNone (env : Env) (rec : AState → String → Hist → Option (AState × List Event))
    (st : AState) (fen : String) (hist : Hist) (m : MoveData) (fen1 : String)
    (hl : lookupKey st.analyzed_positions (cacheKey fen m.uci) = none)
    (h1 : env.applyMove fen m.uci = some fen1)
    (h2 : env.evalRaw fen1 = none) :
    processOne env rec st fen hist m = some (st, [Event.evalQuery fen1]) := by
  simp only [processOne, hl, h1, h2]

theorem processOne_cold (env : Env) (rec : AState → String → Hist → Option (AState × List Event))
    (st : AState) (fen : String) (hist : Hist) (m : MoveData)
    (r : RawEval) (fen1 fen2 : String)
    (hl : lookupKey st.analyzed_positions (cacheKey fen m.uci) = none)
    (h1 : env.applyMove fen m.uci = some fen1)
    (h2 : env.evalRaw fen1 = some r)
    (h3 : env.applyMove fen1 (bestReplyOf r).uci = some fen2) :
    processOne env rec st fen hist m =
      match rec (coldStore st (cacheKey fen m.uci) (coldHist hist m r)
          m.games (bestReplyOf r)) fen2 (coldHist hist m r) with
      | none => none
      | some (st1, ev1) =>
        some (st1, coldEvents fen1 (cacheKey fen m.uci) st.variation_counter ++ ev1) := by
  simp only [processOne, hl, h1, h2, h3]

theorem processOne_cold_abort (env : Env) (rec : AState → String → Hist → Option (AState × List Event))
    (st : AState) (fen : String) (hist : Hist) (m : MoveData)
    (r : RawEval) (fen1 : String)
    (hl : lookupKey st.analyzed_positions (cacheKey fen m.uci) = none)
    (h1 : env.applyMove fen m.uci = some fen1)
    (h2 : env.evalRaw fen1 = some r)
    (h3 : env.applyMove fen1 (bestReplyOf r).uci = none) :
    processOne env rec st fen hist m = none := by
  simp only [processOne, hl, h1, h2, h3]

theorem processMovesAux_nil (env : Env) (rec : AState → String → Hist → Option (AState × List Event))
    (st : AState) (fen : String) (hist : Hist) :
    processMovesAux env rec st fen hist [] = some (st, []) := rfl

theorem processMovesAux_cons (env : Env) (rec : AState → String → Hist → Option (AState × List Event))
    (st : AState) (fen : String) (hist : Hist) (m : MoveData) (rest : List MoveData) :
    processMovesAux env rec st fen hist (m :: rest) =
      match processOne env rec st fen hist m with
      | none => none
      | some (st1, ev1) =>
        match processMovesAux env rec st1 fen hist rest with
        | none => none
        | some (st2, ev2) => some (st2, ev1 ++ ev2) := rfl

theorem processMovesAux_cons_inv (env : Env)
    (rec : AState → String → Hist → Option (AState × List Event))
    (st : AState) (fen : String) (hist : Hist) (m : MoveData)
    (rest : List MoveData) (st2 : AState) (ev : List Event)
    (h : processMovesAux env rec st fen hist (m :: rest) = some (st2, ev)) :
    ∃ st1 ev1 ev2, processOne env rec st fen hist m = some (st1, ev1) ∧
      processMovesAux env rec st1 fen hist rest = some (st2, ev2) ∧
      ev = ev1 ++ ev2 := by
  rw [processMovesAux_cons] at h
  cases h1 : processOne env rec st fen hist m with
  | none =>
    simp only [h1] at h
    exact Option.noConfusion h
  | some p =>
    obtain ⟨st1, ev1⟩ := p
    simp only [h1] at h
    cases h2 : processMovesAux env rec st1 fen hist rest with
    | none =>
      simp only [h2] at h
      exact Option.noConfusion h
    | some q =>
      obtain ⟨st2q, ev2⟩ := q
      simp only [h2, Option.some.injEq, Prod.mk.injEq] at h
      obtain ⟨rfl, rfl⟩ := h
      exact ⟨st1, ev1, ev2, rfl, h2, rfl⟩

theorem analyze_explored (env : Env) (k : Nat) (st : AState) (fen : String)
    (hist : Hist) (h : fen ∈ st.fully_explored_fens) :
    analyze_position_recursive env (k + 1) st fen hist = some (st, []) := by
  unfold analyze_position_recursive
  rw [if_pos h]

theorem analyze_noMoves (env : Env) (k : Nat) (st : AState) (fen : String)
    (hist : Hist) (h : fen ∉ st.fully_explored_fens)
    (hm : (get_lichess_moves env fen 5).1 = []) :
    analyze_position_recursive env (k + 1) st fen hist =
      some ({ st with fully_explored_fens := fen :: st.fully_explored_fens },
            [Event.oracleQuery fen, Event.sleep 500, Event.checkpoint]) := by
  have hq : get_lichess_moves env fen 5 =
      ([], [Event.oracleQuery fen, Event.sleep 500]) := by
    have hev := get_lichess_moves_events env fen 5
    cases hqq : get_lichess_moves env fen 5 with
    | mk a b =>
      rw [hqq] at hm hev
      simp only at hm hev
      rw [hm, hev]
  unfold analyze_position_recursive
  rw [if_neg h, hq]
  rfl

theorem analyze_step (env : Env) (k : Nat) (st : AState) (fen : String)
    (hist : Hist) (ms : List MoveData) (h : fen ∉ st.fully_explored_fens)
    (hm : (get_lichess_moves env fen 5).1 = ms) (hne : ms ≠ []) :
    analyze_position_recursive env (k + 1) st fen hist =
      match processMovesAux env (analyze_position_recursive env k) st fen hist ms with
      | none => none
      | some (st1, ev1) =>
        some ({ st1 with fully_explored_fens := fen :: st1.fully_explored_fens },
              [Event.oracleQuery fen, Event.sleep 500] ++ ev1 ++ [Event.checkpoint]) := by
  have hq : get_lichess_moves env fen 5 =
      (ms, [Event.oracleQuery fen, Event.sleep 500]) := by
    have hev := get_lichess_moves_events env fen 5
    cases hqq : get_lichess_moves env fen 5 with
    | mk a b =>
      rw [hqq] at hev hm
      simp only at hev hm
      rw [hev, hm]
  unfold analyze_position_recursive
  rw [if_neg h, hq]
  simp only [if_neg hne]

/-! ### The run invariant holds for every completed (sub-)run -/

theorem processOne_delta (env : Env)
    (rec : AState → String → Hist → Option (AState × List Event))
    (hrec : ∀ s f hs s2 e, rec s f hs = some (s2, e) → RunDelta s s2 e)
    (st : AState) (fen : String) (hist : Hist) (m : MoveData)
    (st2 : AState) (ev : List Event)
    (h : processOne env rec st fen hist m = some (st2, ev)) :
    RunDelta st st2 ev := by
  cases hl : lookupKey st.analyzed_positions (cacheKey fen m.uci) with
  | some cached =>
    cases h1 : env.applyMove fen m.uci with
    | none =>
      simp only [processOne, hl, h1] at h
      exact Option.noConfusion h
    | some fen1 =>
      cases h2 : env.applyMove fen1 cached.uci with
      | none =>
        simp only [processOne, hl, h1, h2] at h
        exact Option.noConfusion h
      | some fen2 =>
        rw [processOne_hit env rec st fen hist m cached fen1 fen2 hl h1 h2] at h
        exact hrec _ _ _ _ _ h
  | none =>
    cases h1 : env.applyMove fen m.uci with
    | none =>
      rw [processOne_applyFail env rec st fen hist m hl h1] at h
      simp only [Option.some.injEq, Prod.mk.injEq] at h
      obtain ⟨rfl, rfl⟩ := h
      exact RunDelta.refl st
    | some fen1 =>
      cases h2 : env.evalRaw fen1 with
      | none =>
        rw [processOne_evalNone env rec st fen hist m fen1 hl h1 h2] at h
        simp only [Option.some.injEq, Prod.mk.injEq] at h
        obtain ⟨rfl, rfl⟩ := h
        exact RunDelta.ofSilent st _ rfl rfl
      | some r =>
        cases h3 : env.applyMove fen1 (bestReplyOf r).uci with
        | none =>
          rw [processOne_cold_abort env rec st fen hist m r fen1 hl h1 h2 h3] at h
          exact Option.noConfusion h
        | some fen2 =>
          rw [processOne_cold env rec st fen hist m r fen1 fen2 hl h1 h2 h3] at h
          cases hr : rec (coldStore st (cacheKey fen m.uci) (coldHist hist m r)
              m.games (bestReplyOf r)) fen2 (coldHist hist m r) with
          | none =>
            simp only [hr] at h
            exact Option.noConfusion h
          | some p =>
            obtain ⟨stR, evR⟩ := p
            simp only [hr, Option.some.injEq, Prod.mk.injEq] at h
            obtain ⟨rfl, rfl⟩ := h
            exact (RunDelta.coldStep st fen1 (cacheKey fen m.uci) (coldHist hist m r)
              m.games (bestReplyOf r) hl).comp (hrec _ _ _ _ _ hr)

theorem processMovesAux_delta (env : Env)
    (rec : AState → String → Hist → Option (AState × List Event))
    (hrec : ∀ s f hs s2 e, rec s f hs = some (s2, e) → RunDelta s s2 e)
    (ms : List MoveData) :
    ∀ st fen hist st2 ev,
      processMovesAux env rec st fen hist ms = some (st2, ev) →
      RunDelta st st2 ev := by
  induction ms with
  | nil =>
    intro st fen hist st2 ev h
    rw [processMovesAux_nil] at h
    simp only [Option.some.injEq, Prod.mk.injEq] at h
    obtain ⟨rfl, rfl⟩ := h
    exact RunDelta.refl st
  | cons m rest ih =>
    intro st fen hist st2 ev h
    obtain ⟨st1, ev1, ev2, h1, h2, rfl⟩ :=
      processMovesAux_cons_inv env rec st fen hist m rest st2 ev h
    exact (processOne_delta env rec hrec st fen hist m st1 ev1 h1).comp
      (ih st1 fen hist st2 ev2 h2)

theorem analyze_delta (env : Env) :
    ∀ fuel st fen hist st2 ev,
      analyze_position_recursive env fuel st fen hist = some (st2, ev) →
      RunDelta st st2 ev := by
  intro fuel
  induction fuel with
  | zero =>
    intro st fen hist st2 ev h
    exact Option.noConfusion h
  | succ k ih =>
    intro st fen hist st2 ev h
    by_cases hex : fen ∈ st.fully_explored_fens
    · rw [analyze_explored env k st fen hist hex] at h
      simp only [Option.some.injEq, Prod.mk.injEq] at h
      obtain ⟨rfl, rfl⟩ := h
      exact RunDelta.refl st
    · cases hm : (get_lichess_moves env fen 5).1 with
      | nil =>
        rw [analyze_noMoves env k st fen hist hex hm] at h
        simp only [Option.some.injEq, Prod.mk.injEq] at h
        obtain ⟨rfl, rfl⟩ := h
        exact RunDelta.markExplored st fen _ rfl rfl
      | cons m rest =>
        rw [analyze_step env k st fen hist (m :: rest) hex hm (by simp)] at h
        cases hp : processMovesAux env (analyze_position_recursive env k)
            st fen hist (m :: rest) with
        | none =>
          simp only [hp] at h
          exact Option.noConfusion h
        | some p =>
          obtain ⟨st1, ev1⟩ := p
          simp only [hp, Option.some.injEq, Prod.mk.injEq] at h
          obtain ⟨rfl, rfl⟩ := h
          have d1 : RunDelta st st1 ev1 :=
            processMovesAux_delta env (analyze_position_recursive env k)
              (ih) (m :: rest) st fen hist st1 ev1 hp
          have d0 : RunDelta st st [Event.oracleQuery fen, Event.sleep 500] :=
            RunDelta.ofSilent st _ rfl rfl
          have d2 : RunDelta st1
              { st1 with fully_explored_fens := fen :: st1.fully_explored_fens }
              [Event.checkpoint] :=
            RunDelta.markExplored st1 fen _ rfl rfl
          have := (d0.comp d1).comp d2
          rwa [List.append_assoc] at this

/-! ### Per-candidate cache population -/

theorem processOne_stores (env : Env)
    (rec : AState → String → Hist → Option (AState × List Event))
    (hrec : ∀ s f hs s2 e, rec s f hs = some (s2, e) → RunDelta s s2 e)
    (st : AState) (fen : String) (hist : Hist) (m : MoveData)
    (st1 : AState) (ev1 : List Event) (fen1 : String)
    (h : processOne env rec st fen hist m = some (st1, ev1))
    (ha : env.applyMove fen m.uci = some fen1)
    (he : env.evalRaw fen1 ≠ none) :
    (lookupKey st1.analyzed_positions (cacheKey fen m.uci)).isSome = true := by
  cases hl : lookupKey st.analyzed_positions (cacheKey fen m.uci) with
  | some cached =>
    have d := processOne_delta env rec hrec st fen hist m st1 ev1 h
    exact d.lookup_preserved _ (by rw [hl]; rfl)
  | none =>
    cases h2 : env.evalRaw fen1 with
    | none => exact absurd h2 he
    | some r =>
      cases h3 : env.applyMove fen1 (bestReplyOf r).uci with
      | none =>
        rw [processOne_cold_abort env rec st fen hist m r fen1 hl ha h2 h3] at h
        exact Option.noConfusion h
      | some fen2 =>
        rw [processOne_cold env rec st fen hist m r fen1 fen2 hl ha h2 h3] at h
        cases hr : rec (coldStore st (cacheKey fen m.uci) (coldHist hist m r)
            m.games (bestReplyOf r)) fen2 (coldHist hist m r) with
        | none =>
          simp only [hr] at h
          exact Option.noConfusion h
        | some p =>
          obtain ⟨stR, evR⟩ := p
          simp only [hr, Option.some.injEq, Prod.mk.injEq] at h
          obtain ⟨rfl, rfl⟩ := h
          refine (hrec _ _ _ _ _ hr).lookup_preserved _ ?_
          show (lookupKey (coldStore st (cacheKey fen m.uci) (coldHist hist m r)
            m.games (bestReplyOf r)).analyzed_positions (cacheKey fen m.uci)).isSome = true
          unfold coldStore
          rw [lookupKey_append_self _ _ _ hl]
          rfl

theorem processMovesAux_stores (env : Env)
    (rec : AState → String → Hist → Option (AState × List Event))
    (hrec : ∀ s f hs s2 e, rec s f hs = some (s2, e) → RunDelta s s2 e)
    (ms : List MoveData) :
    ∀ st fen hist st2 ev m fen1,
      processMovesAux env rec st fen hist ms = some (st2, ev) →
      m ∈ ms → env.applyMove fen m.uci = some fen1 →
      env.evalRaw fen1 ≠ none →
      (lookupKey st2.analyzed_positions (cacheKey fen m.uci)).isSome = true := by
  induction ms with
  | nil =>
    intro st fen hist st2 ev m fen1 h hm
    cases hm
  | cons m0 rest ih =>
    intro st fen hist st2 ev m fen1 h hm ha he
    obtain ⟨st1, ev1, ev2, h1, h2, rfl⟩ :=
      processMovesAux_cons_inv env rec st fen hist m0 rest st2 ev h
    rcases List.mem_cons.mp hm with rfl | hmr
    · have hst1 := processOne_stores env rec hrec st fen hist m st1 ev1 fen1 h1 ha he
      exact (processMovesAux_delta env rec hrec rest st1 fen hist st2 ev2 h2).lookup_preserved _ hst1
    · exact ih st1 fen hist st2 ev2 m fen1 h2 hmr ha he

/-! ### The first event of an unexplored-position run is its oracle query -/

theorem analyze_oracle_first (env : Env) (k : Nat) (st : AState) (fen : String)
    (hist : Hist) (st2 : AState) (ev : List Event)
    (h : analyze_position_recursive env (k + 1) st fen hist = some (st2, ev))
    (hx : fen ∉ st.fully_explored_fens) :
    ∃ t, ev = Event.oracleQuery fen :: t := by
  cases hm : (get_lichess_moves env fen 5).1 with
  | nil =>
    rw [analyze_noMoves env k st fen hist hx hm] at h
    simp only [Option.some.injEq, Prod.mk.injEq] at h
    obtain ⟨-, rfl⟩ := h
    exact ⟨_, rfl⟩
  | cons m rest =>
    rw [analyze_step env k st fen hist (m :: rest) hx hm (by simp)] at h
    cases hp : processMovesAux env (analyze_position_recursive env k)
        st fen hist (m :: rest) with
    | none =>
      simp only [hp] at h
      exact Option.noConfusion h
    | some p =>
      obtain ⟨st1, ev1⟩ := p
      simp only [hp, Option.some.injEq, Prod.mk.injEq] at h
      obtain ⟨-, rfl⟩ := h
      exact ⟨_, rfl⟩

/-! ### Claim theorems -/

/-- C4: for every position whose canonical FEN is in `fully_explored_fens`,
any call to `analyze_position_recursive` on it returns immediately with the
state unchanged and an empty trace — no oracle query, no evaluator call, no
mutation (lines 240-243). -/
theorem explored_position_short_circuits (env : Env) (fuel : Nat) (st : AState)
    (fen : String) (hist : Hist) (h : fen ∈ st.fully_explored_fens) :
    analyze_position_recursive env (fuel + 1) st fen hist = some (st, []) :=
  analyze_explored env fuel st fen hist h

/-- Witness for C4's theorem at a concrete state that already contains the
root FEN. -/
theorem explored_position_short_circuits_witness :
    analyze_position_recursive envHappy (4 + 1) ⟨[], ["f0"], 0, []⟩ "f0" [] =
      some (⟨[], ["f0"], 0, []⟩, []) :=
  explored_position_short_circuits envHappy 4 ⟨[], ["f0"], 0, []⟩ "f0" []
    (by decide)

/-- C6: when the popularity oracle yields no qualifying candidate (after the
`min_games` filter), the engine marks the position fully explored, saves a
checkpoint and returns — zero records, zero cache writes, zero evaluator
calls (lines 249-253). -/
theorem oracle_exhaustion_is_base_case (env : Env) (fuel : Nat) (st : AState)
    (fen : String) (hist : Hist) (h1 : fen ∉ st.fully_explored_fens)
    (h2 : (get_lichess_moves env fen 5).1 = []) :
    analyze_position_recursive env (fuel + 1) st fen hist =
      some ({ st with fully_explored_fens := fen :: st.fully_explored_fens },
            [Event.oracleQuery fen, Event.sleep 500, Event.checkpoint]) :=
  analyze_noMoves env fuel st fen hist h1 h2

/-- Witness for C6's theorem: `envHappy`'s oracle has no data for "f9". -/
theorem oracle_exhaustion_is_base_case_witness :
    analyze_position_recursive envHappy (0 + 1) initState "f9" [] =
      some (⟨[], ["f9"], 0, []⟩,
            [Event.oracleQuery "f9", Event.sleep 500, Event.checkpoint]) :=
  oracle_exhaustion_is_base_case envHappy 0 initState "f9" [] (by decide)
    (by decide)

/-- C10: an HTTP failure of the popularity oracle makes `get_lichess_moves`
return the empty list, whereupon the position is treated exactly like an
exhausted one: marked fully explored and checkpointed, with no evaluator
call; and every later run on that position short-circuits with no oracle or
evaluator query — the transient failure permanently prunes the subtree. -/
theorem oracle_failure_prunes_subtree (env : Env) (fuel : Nat) (st : AState)
    (fen : String) (hist : Hist) (msg : String) (k : Nat) (hist2 : Hist)
    (herr : env.http fen = .error msg)
    (hx : fen ∉ st.fully_explored_fens) :
    analyze_position_recursive env (fuel + 1) st fen hist =
      some ({ st with fully_explored_fens := fen :: st.fully_explored_fens },
            [Event.oracleQuery fen, Event.sleep 500, Event.checkpoint]) ∧
    analyze_position_recursive env (k + 1)
        { st with fully_explored_fens := fen :: st.fully_explored_fens } fen hist2 =
      some ({ st with fully_explored_fens := fen :: st.fully_explored_fens }, []) := by
  have hm : (get_lichess_moves env fen 5).1 = [] := by
    rw [get_lichess_moves_error env fen 5 msg herr]
  exact ⟨analyze_noMoves env fuel st fen hist hx hm,
    analyze_explored env k _ fen hist2 (List.mem_cons_self _ _)⟩

/-- Witness for C10's theorem: `envHappy.http` fails for "f9". -/
theorem oracle_failure_prunes_subtree_witness :
    analyze_position_recursive envHappy (0 + 1) initState "f9" [] =
      some (⟨[], ["f9"], 0, []⟩,
            [Event.oracleQuery "f9", Event.sleep 500, Event.checkpoint]) ∧
    analyze_position_recursive envHappy (2 + 1) (⟨[], ["f9"], 0, []⟩ : AState) "f9" [] =
      some ((⟨[], ["f9"], 0, []⟩ : AState), []) :=
  oracle_failure_prunes_subtree envHappy 0 initState "f9" [] "offline" 2 []
    rfl (by decide)

/-- C2: records are emitted only on the cold path.  For any completed run,
the variation counter advances by exactly the number of `emit` events of the
trace, the record list is append-only and grows by exactly that number,
every emission is paired with exactly one cache store, and every stored key
was absent from the cache at the moment of its store (a genuine miss) — so a
cache hit never increments the counter or appends a record, and re-running
against an existing checkpoint cannot duplicate records. -/
theorem records_emitted_only_on_cold_path (env : Env) (fuel : Nat)
    (st : AState) (fen : String) (hist : Hist) (st2 : AState) (ev : List Event)
    (hrun : analyze_position_recursive env fuel st fen hist = some (st2, ev)) :
    st2.variation_counter = st.variation_counter + countEmits ev ∧
    st2.all_variations.length = st.all_variations.length + countEmits ev ∧
    st2.all_variations.take st.all_variations.length = st.all_variations ∧
    (storeKeys ev).length = countEmits ev ∧
    freshStores (st.analyzed_positions.map Prod.fst) ev = true := by
  have d := analyze_delta env fuel st fen hist st2 ev hrun
  obtain ⟨recs, hr, hl⟩ := d.recsExt
  refine ⟨d.counterAdds, ?_, ?_, d.storesMatchEmits, d.fresh⟩
  · rw [hr, List.length_append, hl]
  · rw [hr, List.take_left]

/-- Witness for C2's theorem on the completed `envHappy` run (one fresh
store, one emission, one record). -/
theorem records_emitted_only_on_cold_path_witness :
    stHappy.variation_counter = initState.variation_counter + countEmits evHappy ∧
    stHappy.all_variations.length = initState.all_variations.length + countEmits evHappy ∧
    stHappy.all_variations.take initState.all_variations.length = initState.all_variations ∧
    (storeKeys evHappy).length = countEmits evHappy ∧
    freshStores (initState.analyzed_positions.map Prod.fst) evHappy = true :=
  records_emitted_only_on_cold_path envHappy 3 initState "f0" [] stHappy evHappy rfl

/-- C1 counterexample: in a world whose evaluator yields no move for the
single oracle candidate `e2e4` of "f0", the completed run still adds "f0" to
`fully_explored_fens` (the mark at lines 341-343 is unconditional) while the
candidate's cache key has no entry — refuting both that every oracle
candidate of an explored position has a cache hit and that a failed
candidate prevents the position from being counted as explored. -/
theorem explored_despite_uncached_candidate :
    (get_lichess_moves envEvalFails "f0" 5).1 = [mvE4] ∧
    (analyze_position_recursive envEvalFails 2 initState "f0" []).map
        (fun x => (x.1.fully_explored_fens,
          lookupKey x.1.analyzed_positions (cacheKey "f0" mvE4.uci), x.2)) =
      some (["f0"], none,
        [Event.oracleQuery "f0", Event.sleep 500, Event.evalQuery "f1",
         Event.checkpoint]) := by
  constructor
  · decide
  · decide

/-- C1 as amended: the position is marked fully explored unconditionally at
the end of the loop, and the cache-hit guarantee holds for the successful
candidates: every oracle candidate that applies under the rules engine and
for which the evaluator yields a move has a cache entry under
`(position, move)` in the final state. -/
theorem explored_implies_successful_candidates_cached (env : Env) (fuel : Nat)
    (st : AState) (fen : String) (hist : Hist) (st2 : AState) (ev : List Event)
    (m : MoveData) (fen1 : String)
    (hrun : analyze_position_recursive env fuel st fen hist = some (st2, ev))
    (hx : fen ∉ st.fully_explored_fens)
    (hm : m ∈ (get_lichess_moves env fen 5).1)
    (ha : env.applyMove fen m.uci = some fen1)
    (he : env.evalRaw fen1 ≠ none) :
    fen ∈ st2.fully_explored_fens ∧
    (lookupKey st2.analyzed_positions (cacheKey fen m.uci)).isSome = true := by
  cases fuel with
  | zero => exact Option.noConfusion hrun
  | succ k =>
    cases hms : (get_lichess_moves env fen 5).1 with
    | nil =>
      rw [hms] at hm
      cases hm
    | cons m0 rest =>
      rw [hms] at hm
      rw [analyze_step env k st fen hist (m0 :: rest) hx hms (by simp)] at hrun
      cases hp : processMovesAux env (analyze_position_recursive env k)
          st fen hist (m0 :: rest) with
      | none =>
        simp only [hp] at hrun
        exact Option.noConfusion hrun
      | some p =>
        obtain ⟨st1, ev1⟩ := p
        simp only [hp, Option.some.injEq, Prod.mk.injEq] at hrun
        obtain ⟨rfl, rfl⟩ := hrun
        refine ⟨List.mem_cons_self _ _, ?_⟩
        exact processMovesAux_stores env (analyze_position_recursive env k)
          (analyze_delta env k) (m0 :: rest) st fen hist st1 ev1 m fen1 hp hm ha he

/-- Witness for C1's amended theorem on the completed `envHappy` run. -/
theorem explored_implies_successful_candidates_cached_witness :
    "f0" ∈ stHappy.fully_explored_fens ∧
    (lookupKey stHappy.analyzed_positions (cacheKey "f0" mvE4.uci)).isSome = true :=
  explored_implies_successful_candidates_cached envHappy 3 initState "f0" []
    stHappy evHappy mvE4 "f1" rfl (by decide) (by decide) (by decide) (by decide)

/-- C5: whether a candidate's cache key hits or misses, the engine applies
the (cached or freshly computed) reply and recurses into the two-ply
successor with the extended history: whenever that successor is not yet
explored, the completed loop's trace contains the successor's own oracle
query — a cache hit does not short-circuit deeper recursion
(lines 268-278 and 335-337). -/
theorem cache_hit_does_not_short_circuit_recursion (env : Env) (fuel : Nat)
    (st : AState) (fen : String) (hist : Hist) (m : MoveData)
    (rest : List MoveData) (st2 : AState) (ev : List Event)
    (fen1 fen2 : String) (rep : BestReply)
    (hrep : replyFor env st fen fen1 m = some rep)
    (h1 : env.applyMove fen m.uci = some fen1)
    (h2 : env.applyMove fen1 rep.uci = some fen2)
    (hx2 : fen2 ∉ st.fully_explored_fens)
    (hrun : processMovesAux env (analyze_position_recursive env fuel)
        st fen hist (m :: rest) = some (st2, ev)) :
    Event.oracleQuery fen2 ∈ ev := by
  obtain ⟨st1, ev1, ev2, hone, hrest, rfl⟩ :=
    processMovesAux_cons_inv env _ st fen hist m rest st2 ev hrun
  rw [List.mem_append]
  left
  unfold replyFor at hrep
  cases hl : lookupKey st.analyzed_positions (cacheKey fen m.uci) with
  | some cached =>
    rw [hl] at hrep
    simp only [Option.some.injEq] at hrep
    subst hrep
    rw [processOne_hit env _ st fen hist m cached fen1 fen2 hl h1 h2] at hone
    cases fuel with
    | zero => exact Option.noConfusion hone
    | succ k =>
      obtain ⟨t, ht⟩ := analyze_oracle_first env k st fen2 _ st1 ev1 hone hx2
      rw [ht]
      exact List.mem_cons_self _ _
  | none =>
    rw [hl] at hrep
    cases h2e : env.evalRaw fen1 with
    | none =>
      simp only [get_best_response, h2e] at hrep
      exact Option.noConfusion hrep
    | some r =>
      have hrepr : rep = bestReplyOf r := by
        simp only [get_best_response, h2e, Option.some.injEq] at hrep
        exact hrep.symm
      subst hrepr
      rw [processOne_cold env _ st fen hist m r fen1 fen2 hl h1 h2e h2] at hone
      cases hr : analyze_position_recursive env fuel
          (coldStore st (cacheKey fen m.uci) (coldHist hist m r) m.games
            (bestReplyOf r)) fen2 (coldHist hist m r) with
      | none =>
        simp only [hr] at hone
        exact Option.noConfusion hone
      | some p =>
        obtain ⟨stR, evR⟩ := p
        simp only [hr, Option.some.injEq, Prod.mk.injEq] at hone
        obtain ⟨rfl, rfl⟩ := hone
        cases fuel with
        | zero => exact Option.noConfusion hr
        | succ k =>
          have hx2c : fen2 ∉ (coldStore st (cacheKey fen m.uci)
              (coldHist hist m r) m.games (bestReplyOf r)).fully_explored_fens := hx2
          obtain ⟨t, ht⟩ := analyze_oracle_first env k _ fen2 _ stR evR hr hx2c
          rw [ht]
          simp [coldEvents]

/-- Witness for C5's theorem: from a checkpoint where "f0"'s candidate is
cached but "f0" is not yet explored, processing the candidate still queries
the oracle for the two-ply successor "f2". -/
theorem cache_hit_does_not_short_circuit_recursion_witness :
    Event.oracleQuery "f2" ∈
      ([Event.oracleQuery "f2", Event.sleep 500, Event.checkpoint] : List Event) :=
  cache_hit_does_not_short_circuit_recursion envHappy 1 stCached "f0" [] mvE4
    [] ⟨[(cacheKey "f0" "e2e4", bestReplyOf rawE5)], ["f2"], 1, []⟩
    [Event.oracleQuery "f2", Event.sleep 500, Event.checkpoint]
    "f1" "f2" (bestReplyOf rawE5) rfl (by decide) (by decide) (by decide) rfl

/-- C7 counterexample: with a single candidate whose evaluation yields no
move, the first completed run attempts the evaluator exactly once (the
`evalQuery "f1"` event), stores nothing — and yet a later run on the same
position short-circuits with an empty trace: no oracle query and no
evaluator query ever again, so the failed evaluation is never retried. -/
theorem evaluator_failure_not_retried_after_completion :
    analyze_position_recursive envEvalFails 2 initState "f0" [] =
      some (⟨[], ["f0"], 0, []⟩,
        [Event.oracleQuery "f0", Event.sleep 500, Event.evalQuery "f1",
         Event.checkpoint]) ∧
    analyze_position_recursive envEvalFails 9 (⟨[], ["f0"], 0, []⟩ : AState) "f0" [] =
      some ((⟨[], ["f0"], 0, []⟩ : AState), []) := by
  constructor
  · decide
  · decide

/-- C7 as amended: a candidate for which the evaluator yields no move is
skipped — no cache store, no record, no recursion beneath it, only the
evaluator-call event — and the loop continues with the remaining candidates;
however, because the position is still marked fully explored when the loop
completes, any later run on it short-circuits, so the skipped evaluation is
retried only if the run stops before the position is marked explored. -/
theorem evaluator_failure_skips_candidate (env : Env)
    (rec : AState → String → Hist → Option (AState × List Event))
    (st : AState) (fen : String) (hist : Hist) (m : MoveData)
    (rest : List MoveData) (fen1 : String) (k : Nat) (st3 : AState)
    (hist3 : Hist)
    (hmiss : lookupKey st.analyzed_positions (cacheKey fen m.uci) = none)
    (happly : env.applyMove fen m.uci = some fen1)
    (heval : env.evalRaw fen1 = none)
    (hx3 : fen ∈ st3.fully_explored_fens) :
    processOne env rec st fen hist m = some (st, [Event.evalQuery fen1]) ∧
    processMovesAux env rec st fen hist (m :: rest) =
      (processMovesAux env rec st fen hist rest).map
        (fun x => (x.1, Event.evalQuery fen1 :: x.2)) ∧
    analyze_position_recursive env (k + 1) st3 fen hist3 = some (st3, []) := by
  refine ⟨processOne_evalNone env rec st fen hist m fen1 hmiss happly heval,
    ?_, analyze_explored env k st3 fen hist3 hx3⟩
  rw [processMovesAux_cons,
      processOne_evalNone env rec st fen hist m fen1 hmiss happly heval]
  show (match processMovesAux env rec st fen hist rest with
        | none => none
        | some (st2, ev2) => some (st2, [Event.evalQuery fen1] ++ ev2)) =
      (processMovesAux env rec st fen hist rest).map
        (fun x => (x.1, Event.evalQuery fen1 :: x.2))
  cases processMovesAux env rec st fen hist rest with
  | none => rfl
  | some p =>
    obtain ⟨a, b⟩ := p
    rfl

/-- Witness for C7's amended theorem in the evaluator-failure world. -/
theorem evaluator_failure_skips_candidate_witness :
    processOne envEvalFails (analyze_position_recursive envEvalFails 1)
        initState "f0" [] mvE4 = some (initState, [Event.evalQuery "f1"]) ∧
    processMovesAux envEvalFails (analyze_position_recursive envEvalFails 1)
        initState "f0" [] [mvE4] =
      (processMovesAux envEvalFails (analyze_position_recursive envEvalFails 1)
          initState "f0" [] []).map
        (fun x => (x.1, Event.evalQuery "f1" :: x.2)) ∧
    analyze_position_recursive envEvalFails (0 + 1)
        (⟨[], ["f0"], 0, []⟩ : AState) "f0" [] =
      some ((⟨[], ["f0"], 0, []⟩ : AState), []) :=
  evaluator_failure_skips_candidate envEvalFails
    (analyze_position_recursive envEvalFails 1) initState "f0" [] mvE4 []
    "f1" 0 ⟨[], ["f0"], 0, []⟩ [] rfl (by decide) (by decide) (by decide)

/-- C3 counterexample: after the candidate and the reply, the side to move is
again the side that was to move before the candidate (`sideToMoveAfter s 2 =
s`), so the evaluator's relative score is already in the pre-candidate
mover's perspective; re-expressing it into that same perspective would leave
it unchanged (`+20` centipawns, i.e. `1/5` pawns), but the engine negates it:
for `rawE5` the stored evaluation is `-1/5`, not the claimed value. -/
theorem evaluation_sign_not_premove_perspective :
    (get_best_response envHappy "f1").1.map BestReply.evaluation ≠
      some (scoreFromPerspective ((rawE5.relScore : ℚ) / 100)
        (sideToMoveAfter true 2) true) := by
  norm_num [get_best_response, envHappy, bestReplyOf, rawE5,
    scoreFromPerspective, sideToMoveAfter]

/-- C3 as amended: the engine negates the evaluator's post-reply relative
score, so the stored evaluation is signed relative to the side to move
*after* the candidate move (the replier, `sideToMoveAfter s 1`), i.e. the
negation of the pre-candidate mover's perspective. -/
theorem evaluation_sign_postcandidate_perspective (env : Env) (fen : String)
    (r : RawEval) (s : Bool) (h : env.evalRaw fen = some r) :
    (get_best_response env fen).1.map BestReply.evaluation =
      some (scoreFromPerspective ((r.relScore : ℚ) / 100)
        (sideToMoveAfter s 2) (sideToMoveAfter s 1)) := by
  cases s <;>
    simp [get_best_response, h, bestReplyOf, scoreFromPerspective,
      sideToMoveAfter, neg_div]

/-- Witness for C3's amended theorem at the concrete evaluator answer. -/
theorem evaluation_sign_postcandidate_perspective_witness :
    (get_best_response envHappy "f1").1.map BestReply.evaluation =
      some (scoreFromPerspective ((rawE5.relScore : ℚ) / 100)
        (sideToMoveAfter true 2) (sideToMoveAfter true 1)) :=
  evaluation_sign_postcandidate_perspective envHappy "f1" rawE5 true (by decide)

/-- C8: in chesser2.py the `time.sleep(0.5)` of `get_lichess_moves` is
unreachable — placed after the `return` of both the success and the error
path, so no sleep happens after either kind of query — whereas the
OpeningAnalyze.py version (sleep in `finally`) always sleeps.  This refutes
the claimed unconditional 0.5 s delay for chesser2.py's `get_lichess_moves`
and exhibits the intended behaviour next to it. -/
theorem chesser2_sleep_unreachable :
    (chesser2_get_lichess_moves envHttpError "f0" 10).2 = [Event.oracleQuery "f0"] ∧
    (chesser2_get_lichess_moves envHttpOk "f0" 10).2 = [Event.oracleQuery "f0"] ∧
    Event.sleep 500 ∉ (chesser2_get_lichess_moves envHttpError "f0" 10).2 ∧
    Event.sleep 500 ∉ (chesser2_get_lichess_moves envHttpOk "f0" 10).2 ∧
    (get_lichess_moves envHttpError "f0" 10).2 =
      [Event.oracleQuery "f0", Event.sleep 500] ∧
    (get_lichess_moves envHttpOk "f0" 10).2 =
      [Event.oracleQuery "f0", Event.sleep 500] := by
  refine ⟨by decide, by decide, by decide, by decide, by decide, by decide⟩

/-- C9 counterexample: `load_progress` catches only `json.JSONDecodeError`
and `KeyError` (line 67); an OS-level failure of `open`/read propagates to
the caller, so loading is not "never fatal". -/
theorem load_progress_raises_on_os_error :
    load_progress (ReadResult.osError "PermissionError: progress.json")
        initState =
      Except.error "PermissionError: progress.json" := rfl

/-- C9 as amended: a missing progress file leaves the state at its
empty/zero initial value with only a message; a JSON decode failure is
caught with a warning and the run starts fresh; a parsed document fills
every missing field with its empty/zero default (a document with no fields
reproduces the initial state exactly); but OS-level read errors and
undecodable bytes are outside the caught exception types and raise. -/
theorem load_progress_guarded_cases (st : AState) (e : String)
    (doc : ProgressDoc) :
    load_progress ReadResult.absent st =
      Except.ok (st, ["No previous progress found. Starting fresh."]) ∧
    load_progress (ReadResult.jsonError e) st =
      Except.ok (st, ["Warning: Could not load progress file (" ++ e ++
        "). Starting fresh."]) ∧
    load_progress (ReadResult.parsed doc) st =
      Except.ok ({ analyzed_positions := doc.analyzed_positions.getD [],
                   fully_explored_fens := doc.fully_explored_fens.getD [],
                   variation_counter := doc.variation_counter.getD 0,
                   all_variations := doc.all_variations.getD [] },
                 ["Resumed progress."]) ∧
    load_progress (ReadResult.parsed ⟨none, none, none, none⟩) st =
      Except.ok (initState, ["Resumed progress."]) :=
  ⟨rfl, rfl, rfl, rfl⟩
